import Mathlib

/-!
Verification of the Network Quality Assessment & Adaptive Connection Engine
of the ngxsmk-gamenet-optimizer repository.

The Python modules are shallowly embedded: floats are modelled as exact
rationals (`ℚ`), network / OS effects are supplied through explicit
environment records, and code paths that raise exceptions to the caller are
modelled with `Except`.  Each definition mirrors one function of the source
(`src/modules/network_analyzer.py`, `src/modules/multi_internet.py`,
`src/modules/lol_optimizer.py`, `src/modules/system_monitor.py`).
-/

/-- `statistics.mean` / `sum(xs)/len(xs)` on a list of rationals
(0 on the empty list; every caller guards for non-emptiness). -/
def mean (l : List ℚ) : ℚ := l.sum / l.length

/-- Python `min(xs)` on a non-empty list (0 on the empty list). -/
def listMin : List ℚ → ℚ
  | [] => 0
  | x :: xs => xs.foldl min x

/-- Python `max(xs)` on a non-empty list (0 on the empty list). -/
def listMax : List ℚ → ℚ
  | [] => 0
  | x :: xs => xs.foldl max x

/-- Round to the nearest integer, ties to even (Python's `round`). -/
def rhe (x : ℚ) : ℤ :=
  let f := ⌊x⌋
  let r := x - f
  if r < 1/2 then f
  else if 1/2 < r then f + 1
  else if f % 2 = 0 then f else f + 1

/-- Python `round(x, 1)`: round to one decimal place, ties to even. -/
def round1 (x : ℚ) : ℚ := (rhe (x * 10) : ℚ) / 10

/-- Does the first character list start with the second? -/
def chStarts : List Char → List Char → Bool
  | _, [] => true
  | [], _ :: _ => false
  | a :: as, b :: bs => a == b && chStarts as bs

/-- Does the first character list contain the second as a contiguous
run? -/
def chContains : List Char → List Char → Bool
  | [], pat => chStarts [] pat
  | c :: t, pat => chStarts (c :: t) pat || chContains t pat

/-- Python `pat in s` substring test. -/
def strContains (s pat : String) : Bool := chContains s.data pat.data

/-- Python `s.lower()`. -/
def strLower (s : String) : String := ⟨s.data.map Char.toLower⟩

/-! ## network_analyzer.py: NetworkAnalyzer -/

/-- The dictionary returned by the ping helpers of `NetworkAnalyzer`:
keys `min`, `max`, `avg`, `packet_loss`. -/
structure PingStats where
  minL : ℚ
  maxL : ℚ
  avg : ℚ
  packet_loss : ℚ
  deriving DecidableEq, Repr

/-- Environment for one `ping_host` call: the outcome of every external
effect the probe can perform (ping3 library availability and per-attempt
results, the system `ping` subprocess, and TCP connects). -/
structure PingEnv where
  ping3Available : Bool
  /-- outcome of each successive `ping3.ping` call: `some latencyMs`
  on success, `none` on timeout / `None` / exception. -/
  ping3Results : List (Option ℚ)
  /-- `subprocess.run` for the system ping raised an exception. -/
  sysRaises : Bool
  /-- the system ping exited with return code 0. -/
  sysExitZero : Bool
  /-- the latencies parsed from the `time=`/`time<` tokens of stdout. -/
  sysParsed : List ℚ
  /-- the outer socket exception of `_ping_alternative` fired. -/
  tcpRaises : Bool
  /-- outcome of each successive timed TCP connect to port 80. -/
  tcpResults : List (Option ℚ)
  deriving DecidableEq, Repr

/-- The successful samples the ping3 loop collects: one per attempt,
dropping attempts that returned `None` or raised. -/
def p3samples (e : PingEnv) (count : ℕ) : List ℚ :=
  (e.ping3Results.take count).filterMap id

/-- The successful samples of the TCP-connect loop of `_ping_alternative`. -/
def tcpSamples (e : PingEnv) (count : ℕ) : List ℚ :=
  (e.tcpResults.take count).filterMap id

/-- `NetworkAnalyzer._ping_with_ping3`: collect up to `count` samples from
the library; empty sample list yields the failure dictionary. -/
def ping_with_ping3 (e : PingEnv) (count : ℕ) : PingStats :=
  if p3samples e count = [] then ⟨0, 0, 0, 100⟩
  else ⟨listMin (p3samples e count), listMax (p3samples e count),
    mean (p3samples e count),
    ((count : ℚ) - (p3samples e count).length) / count * 100⟩

/-- `NetworkAnalyzer._ping_alternative`: time TCP connects to port 80;
an empty sample list or an outer exception yields the failure dictionary. -/
def ping_alternative (e : PingEnv) (count : ℕ) : PingStats :=
  if e.tcpRaises then ⟨0, 0, 0, 100⟩
  else if tcpSamples e count = [] then ⟨0, 0, 0, 100⟩
  else ⟨listMin (tcpSamples e count), listMax (tcpSamples e count),
    mean (tcpSamples e count),
    ((count : ℚ) - (tcpSamples e count).length) / count * 100⟩

/-- `NetworkAnalyzer._ping_with_system`: parse the system ping's stdout;
on exit code 0 with at least one parsed latency report loss 0, otherwise
fall through to `_ping_alternative`; an exception yields the failure
dictionary directly. -/
def ping_with_system (e : PingEnv) (count : ℕ) : PingStats :=
  if e.sysRaises then ⟨0, 0, 0, 100⟩
  else if e.sysExitZero && !e.sysParsed.isEmpty then
    ⟨listMin e.sysParsed, listMax e.sysParsed, mean e.sysParsed, 0⟩
  else ping_alternative e count

/-- `NetworkAnalyzer.ping_host`: dispatch on ping3 availability. -/
def ping_host (e : PingEnv) (count : ℕ) : PingStats :=
  if e.ping3Available then ping_with_ping3 e count else ping_with_system e count

/-- Modelled from the spec's words (§4.1), for comparison with `ping_host`:
the three strategies are tried in order and a strategy that yields zero
samples falls through to the next one. -/
def probeSpec (e : PingEnv) (count : ℕ) : PingStats :=
  if e.ping3Available ∧ p3samples e count ≠ [] then
    ⟨listMin (p3samples e count), listMax (p3samples e count),
      mean (p3samples e count),
      ((count : ℚ) - (p3samples e count).length) / count * 100⟩
  else if e.sysExitZero ∧ e.sysParsed ≠ [] then
    ⟨listMin e.sysParsed, listMax e.sysParsed, mean e.sysParsed, 0⟩
  else ping_alternative e count

/-- The control-flow condition under which `ping_host` returns the failure
dictionary `{min 0, max 0, avg 0, packet_loss 100}`. -/
def pingFails (e : PingEnv) (count : ℕ) : Bool :=
  if e.ping3Available then (p3samples e count).isEmpty
  else if e.sysRaises then true
  else if e.sysExitZero && !e.sysParsed.isEmpty then false
  else e.tcpRaises || (tcpSamples e count).isEmpty

/-! ## network_analyzer.py: get_network_quality_score -/

/-- The dictionary returned by `get_network_quality_score`
(the `avg_latency` / `packet_loss` echo keys are omitted). -/
structure QualityReport where
  score : ℚ
  quality : String
  issues : List String
  deriving DecidableEq, Repr

/-- The latency penalty of `get_network_quality_score`
(first matching bracket, evaluated high-to-low). -/
def latPenalty (avg : ℚ) : ℚ :=
  if avg > 100 then 30 else if avg > 50 then 15 else if avg > 20 then 5 else 0

/-- The packet-loss penalty of `get_network_quality_score`. -/
def lossPenalty (loss : ℚ) : ℚ :=
  if loss > 10 then 40 else if loss > 5 then 20 else if loss > 1 then 10 else 0

/-- The quality label of `get_network_quality_score`. -/
def ratingOf (score : ℚ) : String :=
  if score ≥ 80 then "Excellent"
  else if score ≥ 60 then "Good"
  else if score ≥ 40 then "Fair"
  else "Poor"

/-- The issues list of `get_network_quality_score`. -/
def issuesOf (avgLat avgLoss : ℚ) : List String :=
  (if avgLat > 50 then ["High latency"] else []) ++
  (if avgLoss > 1 then ["Packet loss"] else [])

/-- `NetworkAnalyzer.get_network_quality_score`, as a function of the
`(avg, packet_loss)` pair produced by `ping_host` for each test server.
Servers whose `avg` is not positive are dropped; if none remain the
function short-circuits to the no-connectivity report. -/
def get_network_quality_score (results : List (ℚ × ℚ)) : QualityReport :=
  let valid := results.filter (fun r => 0 < r.1)
  if valid = [] then ⟨0, "Poor", ["No connectivity"]⟩
  else
    let avgLat := mean (valid.map (·.1))
    let avgLoss := mean (valid.map (·.2))
    let score := 100 - latPenalty avgLat - lossPenalty avgLoss
    ⟨max 0 score, ratingOf score, issuesOf avgLat avgLoss⟩

/-! ### Penalty bounds -/

theorem latPenalty_nonneg (a : ℚ) : 0 ≤ latPenalty a := by
  unfold latPenalty; split_ifs <;> norm_num

theorem latPenalty_le (a : ℚ) : latPenalty a ≤ 30 := by
  unfold latPenalty; split_ifs <;> norm_num

theorem lossPenalty_nonneg (a : ℚ) : 0 ≤ lossPenalty a := by
  unfold lossPenalty; split_ifs <;> norm_num

theorem lossPenalty_le (a : ℚ) : lossPenalty a ≤ 40 := by
  unfold lossPenalty; split_ifs <;> norm_num

theorem ratingOf_spec (s : ℚ) :
    (ratingOf s = "Excellent" ↔ 80 ≤ s) ∧
    (ratingOf s = "Good" ↔ 60 ≤ s ∧ s < 80) ∧
    (ratingOf s = "Fair" ↔ 40 ≤ s ∧ s < 60) ∧
    (ratingOf s = "Poor" ↔ s < 40) := by
  unfold ratingOf
  split_ifs with h1 h2 h3 <;>
    refine ⟨?_, ?_, ?_, ?_⟩ <;> constructor <;> intro h <;>
    first
      | rfl
      | linarith
      | exact absurd h (by decide)
      | exact ⟨by linarith, by linarith⟩

/-- The mean latency over the retained (positive-average) server results. -/
def validAvgLat (results : List (ℚ × ℚ)) : ℚ :=
  mean ((results.filter (fun r => 0 < r.1)).map (·.1))

/-- The mean packet loss over the retained server results. -/
def validAvgLoss (results : List (ℚ × ℚ)) : ℚ :=
  mean ((results.filter (fun r => 0 < r.1)).map (·.2))

/-- Claim C1: for every aggregate with at least one successful sample the
quality score is 100 minus the first matching latency penalty on the mean
latency minus the first matching loss penalty on the mean loss, clamped
below at 0 and always in [0, 100], and the rating thresholds are
Excellent ≥ 80, Good ≥ 60, Fair ≥ 40, Poor < 40. -/
theorem claim1_quality_score :
    ∀ results : List (ℚ × ℚ), results.filter (fun r => 0 < r.1) ≠ [] →
    (get_network_quality_score results).score =
      max 0 (100 - latPenalty (validAvgLat results) - lossPenalty (validAvgLoss results)) ∧
    (get_network_quality_score results).score =
      100 - latPenalty (validAvgLat results) - lossPenalty (validAvgLoss results) ∧
    0 ≤ (get_network_quality_score results).score ∧
    (get_network_quality_score results).score ≤ 100 ∧
    ((get_network_quality_score results).quality = "Excellent" ↔
      80 ≤ (get_network_quality_score results).score) ∧
    ((get_network_quality_score results).quality = "Good" ↔
      60 ≤ (get_network_quality_score results).score ∧
        (get_network_quality_score results).score < 80) ∧
    ((get_network_quality_score results).quality = "Fair" ↔
      40 ≤ (get_network_quality_score results).score ∧
        (get_network_quality_score results).score < 60) ∧
    ((get_network_quality_score results).quality = "Poor" ↔
      (get_network_quality_score results).score < 40) := by
  intro results hne
  have hs30 : (30 : ℚ) ≤ 100 - latPenalty (validAvgLat results) -
      lossPenalty (validAvgLoss results) := by
    have h1 := latPenalty_le (validAvgLat results)
    have h2 := lossPenalty_le (validAvgLoss results)
    linarith
  have hs100 : 100 - latPenalty (validAvgLat results) -
      lossPenalty (validAvgLoss results) ≤ 100 := by
    have h1 := latPenalty_nonneg (validAvgLat results)
    have h2 := lossPenalty_nonneg (validAvgLoss results)
    linarith
  generalize haL : validAvgLat results = aL at *
  generalize haP : validAvgLoss results = aP at *
  have hrep : get_network_quality_score results =
      ⟨max 0 (100 - latPenalty aL - lossPenalty aP),
       ratingOf (100 - latPenalty aL - lossPenalty aP),
       issuesOf aL aP⟩ := by
    simp only [get_network_quality_score, validAvgLat, validAvgLoss, if_neg hne] at haL haP ⊢
    rw [haL, haP]
  have hmax : max 0 (100 - latPenalty aL - lossPenalty aP) =
      100 - latPenalty aL - lossPenalty aP :=
    max_eq_right (by linarith)
  have hsc : (get_network_quality_score results).score =
      100 - latPenalty aL - lossPenalty aP := by
    rw [hrep]; exact hmax
  have hq : (get_network_quality_score results).quality =
      ratingOf (100 - latPenalty aL - lossPenalty aP) := by
    rw [hrep]
  have hr := ratingOf_spec (100 - latPenalty aL - lossPenalty aP)
  refine ⟨by rw [hrep], hsc, by rw [hsc]; linarith, by rw [hsc]; linarith, ?_, ?_, ?_, ?_⟩
  · rw [hq, hsc]; exact hr.1
  · rw [hq, hsc]; exact hr.2.1
  · rw [hq, hsc]; exact hr.2.2.1
  · rw [hq, hsc]; exact hr.2.2.2

/-- Witness for C1: the spec's scenario, a single aggregate with
avg = 60 and loss = 0 scores 85 and rates Excellent. -/
theorem claim1_quality_score_witness :
    ([((60 : ℚ), (0 : ℚ))].filter (fun r => 0 < r.1) ≠ []) ∧
    (get_network_quality_score [((60 : ℚ), (0 : ℚ))]).score = 85 ∧
    (get_network_quality_score [((60 : ℚ), (0 : ℚ))]).quality = "Excellent" := by
  have h := claim1_quality_score [((60 : ℚ), (0 : ℚ))] (by decide)
  have hval : (get_network_quality_score [((60 : ℚ), (0 : ℚ))]).score = 85 := by
    rw [h.2.1]
    norm_num [validAvgLat, validAvgLoss, mean, latPenalty, lossPenalty]
  exact ⟨by decide, hval, (h.2.2.2.2.1).2 (by rw [hval]; norm_num)⟩

/-! ### Probe strategy chain (C2, C5, C4) -/

theorem p3samples_length_le (e : PingEnv) (count : ℕ) :
    (p3samples e count).length ≤ count :=
  le_trans (List.length_filterMap_le _ _) (List.length_take_le _ _)

theorem tcpSamples_length_le (e : PingEnv) (count : ℕ) :
    (tcpSamples e count).length ≤ count :=
  le_trans (List.length_filterMap_le _ _) (List.length_take_le _ _)

theorem lossFormula_nonneg (n k : ℕ) (hn : 1 ≤ n) (hk : k ≤ n) :
    0 ≤ ((n : ℚ) - k) / n * 100 := by
  have hn0 : (0 : ℚ) < n := by exact_mod_cast hn
  have hkn : (k : ℚ) ≤ n := by exact_mod_cast hk
  have : (0 : ℚ) ≤ ((n : ℚ) - k) / n := div_nonneg (by linarith) (le_of_lt hn0)
  linarith

theorem lossFormula_le_100 (n k : ℕ) (hn : 1 ≤ n) :
    ((n : ℚ) - k) / n * 100 ≤ 100 := by
  have hn0 : (0 : ℚ) < n := by exact_mod_cast hn
  have hk0 : (0 : ℚ) ≤ k := by positivity
  have h1 : ((n : ℚ) - k) / n ≤ 1 := by
    rw [div_le_one hn0]; linarith
  nlinarith

theorem lossFormula_lt_100 (n k : ℕ) (hn : 1 ≤ n) (hk : 1 ≤ k) :
    ((n : ℚ) - k) / n * 100 < 100 := by
  have hn0 : (0 : ℚ) < n := by exact_mod_cast hn
  have hk0 : (0 : ℚ) < k := by exact_mod_cast hk
  have h1 : ((n : ℚ) - k) / n < 1 := by
    rw [div_lt_one hn0]; linarith
  nlinarith

theorem ping_with_ping3_fail (e : PingEnv) (count : ℕ)
    (h : p3samples e count = []) : ping_with_ping3 e count = ⟨0, 0, 0, 100⟩ := by
  unfold ping_with_ping3; rw [if_pos h]

theorem ping_with_ping3_ne (e : PingEnv) (count : ℕ)
    (h : p3samples e count ≠ []) :
    ping_with_ping3 e count =
      ⟨listMin (p3samples e count), listMax (p3samples e count),
        mean (p3samples e count),
        ((count : ℚ) - (p3samples e count).length) / count * 100⟩ := by
  unfold ping_with_ping3; rw [if_neg h]

theorem ping_alternative_ne (e : PingEnv) (count : ℕ)
    (hr : e.tcpRaises = false) (h : tcpSamples e count ≠ []) :
    ping_alternative e count =
      ⟨listMin (tcpSamples e count), listMax (tcpSamples e count),
        mean (tcpSamples e count),
        ((count : ℚ) - (tcpSamples e count).length) / count * 100⟩ := by
  unfold ping_alternative; rw [hr]; simp only [Bool.false_eq_true, if_false]
  rw [if_neg h]

theorem ping_alternative_fail (e : PingEnv) (count : ℕ)
    (h : e.tcpRaises = true ∨ tcpSamples e count = []) :
    ping_alternative e count = ⟨0, 0, 0, 100⟩ := by
  unfold ping_alternative
  rcases h with h | h
  · rw [h]; simp
  · rw [h]
    split_ifs with h1 h2
    · rfl
    · rfl
    · exact absurd rfl h2

theorem ping_host_of_fail (e : PingEnv) (count : ℕ)
    (h : pingFails e count = true) : ping_host e count = ⟨0, 0, 0, 100⟩ := by
  unfold pingFails at h
  unfold ping_host
  cases hA : e.ping3Available with
  | true =>
    rw [hA] at h; simp only [if_true] at h
    simp only [if_pos rfl]
    exact ping_with_ping3_fail e count (List.isEmpty_iff.mp h)
  | false =>
    rw [hA] at h; simp only [Bool.false_eq_true, if_false] at h
    simp only [Bool.false_eq_true, if_false]
    unfold ping_with_system
    by_cases hS : e.sysRaises = true
    · rw [hS]; simp
    · have hS' : e.sysRaises = false := by
        cases hSR : e.sysRaises
        · rfl
        · exact absurd hSR hS
      rw [hS'] at h; simp only [Bool.false_eq_true, if_false] at h
      rw [hS']; simp only [Bool.false_eq_true, if_false]
      by_cases hE : (e.sysExitZero && !e.sysParsed.isEmpty) = true
      · rw [hE] at h; simp at h
      · have hE' : (e.sysExitZero && !e.sysParsed.isEmpty) = false := by
          cases hEE : (e.sysExitZero && !e.sysParsed.isEmpty)
          · rfl
          · exact absurd hEE hE
        rw [hE'] at h; simp only [Bool.false_eq_true, if_false] at h
        rw [hE']; simp only [Bool.false_eq_true, if_false]
        rcases Bool.or_eq_true_iff.mp h with hT | hT
        · exact ping_alternative_fail e count (Or.inl hT)
        · exact ping_alternative_fail e count (Or.inr (List.isEmpty_iff.mp hT))

theorem ping_host_of_ok (e : PingEnv) (count : ℕ) (hc : 1 ≤ count)
    (h : pingFails e count = false) : (ping_host e count).packet_loss < 100 := by
  unfold pingFails at h
  unfold ping_host
  cases hA : e.ping3Available with
  | true =>
    rw [hA] at h; simp only [if_true] at h
    have hne : p3samples e count ≠ [] := by
      intro hEq; rw [hEq] at h; simp at h
    rw [if_pos rfl, ping_with_ping3_ne e count hne]
    have hk : 1 ≤ (p3samples e count).length :=
      List.length_pos.mpr hne
    exact lossFormula_lt_100 count _ hc hk
  | false =>
    rw [hA] at h; simp only [Bool.false_eq_true, if_false] at h
    simp only [Bool.false_eq_true, if_false]
    unfold ping_with_system
    by_cases hS : e.sysRaises = true
    · rw [hS] at h; simp at h
    · have hS' : e.sysRaises = false := Bool.not_eq_true _ ▸ Bool.of_not_eq_true hS
      rw [hS'] at h; simp only [Bool.false_eq_true, if_false] at h
      rw [hS']; simp only [Bool.false_eq_true, if_false]
      by_cases hE : (e.sysExitZero && !e.sysParsed.isEmpty) = true
      · rw [hE]; simp only [if_true]
        norm_num
      · have hE' : (e.sysExitZero && !e.sysParsed.isEmpty) = false :=
          Bool.of_not_eq_true hE
        rw [hE'] at h; simp only [Bool.false_eq_true, if_false] at h
        rw [hE']; simp only [Bool.false_eq_true, if_false]
        rcases Bool.or_eq_false_iff.mp h with ⟨hT, hI⟩
        have hne : tcpSamples e count ≠ [] := by
          intro hEq; rw [hEq] at hI; simp at hI
        rw [ping_alternative_ne e count hT hne]
        have hk : 1 ≤ (tcpSamples e count).length :=
          List.length_pos.mpr hne
        exact lossFormula_lt_100 count _ hc hk

/-- Claim C2 (amended): `ping_host` uses the library strategy whenever it
is available, with no fall-through to the other strategies; only when the
library is unavailable does the OS-ping strategy run, falling through to
the TCP-connect strategy when it parses no sample; the probe returns the
failure dictionary min = max = avg = 0, loss = 100 exactly on the
`pingFails` condition, and (being a total function) never propagates an
exception. -/
theorem claim2_probe_strategy_chain (e : PingEnv) (count : ℕ) (hc : 1 ≤ count) :
    (e.ping3Available = true → ping_host e count = ping_with_ping3 e count) ∧
    (e.ping3Available = false → ping_host e count = ping_with_system e count) ∧
    (e.ping3Available = false → e.sysRaises = false →
      (e.sysExitZero && !e.sysParsed.isEmpty) = false →
      ping_host e count = ping_alternative e count) ∧
    (ping_host e count = ⟨0, 0, 0, 100⟩ ↔ pingFails e count = true) := by
  refine ⟨fun hA => by unfold ping_host; rw [hA]; simp,
          fun hA => by unfold ping_host; rw [hA]; simp,
          fun hA hS hE => by
            unfold ping_host ping_with_system; rw [hA, hS, hE]; simp,
          ⟨fun hEq => ?_, ping_host_of_fail e count⟩⟩
  cases hF : pingFails e count with
  | true => rfl
  | false =>
    exfalso
    have := ping_host_of_ok e count hc hF
    rw [hEq] at this
    exact absurd this (by norm_num)

/-- C2 counterexample environment: the ping3 library is available but all
its attempts fail, while the system ping would have succeeded. -/
def c2env : PingEnv :=
  ⟨true, [none, none, none, none], false, true, [10], false, []⟩

/-- Counterexample to claim C2 as stated: with the library available and
yielding zero samples, `ping_host` reports total failure instead of
falling through to the OS-ping strategy, which would have returned a
10 ms sample with zero loss. -/
theorem claim2_counterexample :
    c2env.ping3Available = true ∧
    p3samples c2env 4 = [] ∧
    c2env.sysExitZero = true ∧ c2env.sysParsed ≠ [] ∧
    probeSpec c2env 4 = ⟨10, 10, 10, 0⟩ ∧
    ping_host c2env 4 = ⟨0, 0, 0, 100⟩ ∧
    ping_host c2env 4 ≠ probeSpec c2env 4 := by
  have hp3 : p3samples c2env 4 = [] := by decide
  have hspec : probeSpec c2env 4 = ⟨10, 10, 10, 0⟩ := by
    unfold probeSpec
    rw [if_neg (by rw [hp3]; simp)]
    rw [if_pos (by constructor <;> decide)]
    have hparsed : c2env.sysParsed = [10] := rfl
    rw [hparsed]
    have hm : mean [(10 : ℚ)] = 10 := by norm_num [mean]
    rw [show listMin [(10 : ℚ)] = 10 from rfl,
        show listMax [(10 : ℚ)] = 10 from rfl, hm]
  have hhost : ping_host c2env 4 = ⟨0, 0, 0, 100⟩ := by
    unfold ping_host
    have hA : c2env.ping3Available = true := rfl
    rw [hA]
    simp only [if_true]
    exact ping_with_ping3_fail c2env 4 hp3
  refine ⟨rfl, hp3, rfl, by decide, hspec, hhost, ?_⟩
  rw [hspec, hhost]
  intro hcontra
  have := congrArg PingStats.packet_loss hcontra
  norm_num at this

/-- Witness for C2 (amended): the strategy-chain theorem applied to the
concrete environment `c2env` with 4 attempts. -/
theorem claim2_probe_strategy_chain_witness :
    1 ≤ 4 ∧
    ((c2env.ping3Available = true → ping_host c2env 4 = ping_with_ping3 c2env 4) ∧
     (c2env.ping3Available = false → ping_host c2env 4 = ping_with_system c2env 4) ∧
     (c2env.ping3Available = false → c2env.sysRaises = false →
       (c2env.sysExitZero && !c2env.sysParsed.isEmpty) = false →
       ping_host c2env 4 = ping_alternative c2env 4) ∧
     (ping_host c2env 4 = ⟨0, 0, 0, 100⟩ ↔ pingFails c2env 4 = true)) :=
  ⟨by norm_num, claim2_probe_strategy_chain c2env 4 (by norm_num)⟩

theorem ping_host_loss_bounds (e : PingEnv) (count : ℕ) (hc : 1 ≤ count) :
    0 ≤ (ping_host e count).packet_loss ∧ (ping_host e count).packet_loss ≤ 100 := by
  unfold ping_host
  cases hA : e.ping3Available with
  | true =>
    simp only [if_true]
    by_cases h : p3samples e count = []
    · rw [ping_with_ping3_fail e count h]; norm_num
    · rw [ping_with_ping3_ne e count h]
      exact ⟨lossFormula_nonneg count _ hc (p3samples_length_le e count),
             lossFormula_le_100 count _ hc⟩
  | false =>
    simp only [Bool.false_eq_true, if_false]
    unfold ping_with_system
    by_cases hS : e.sysRaises = true
    · rw [hS]; norm_num
    · have hS' : e.sysRaises = false := by
        cases hSR : e.sysRaises
        · rfl
        · exact absurd hSR hS
      rw [hS']; simp only [Bool.false_eq_true, if_false]
      by_cases hE : (e.sysExitZero && !e.sysParsed.isEmpty) = true
      · rw [hE]; simp only [if_true]; norm_num
      · have hE' : (e.sysExitZero && !e.sysParsed.isEmpty) = false := by
          cases hEE : (e.sysExitZero && !e.sysParsed.isEmpty)
          · rfl
          · exact absurd hEE hE
        rw [hE']; simp only [Bool.false_eq_true, if_false]
        by_cases hT : e.tcpRaises = true
        · rw [ping_alternative_fail e count (Or.inl hT)]; norm_num
        · have hT' : e.tcpRaises = false := by
            cases hTT : e.tcpRaises
            · rfl
            · exact absurd hTT hT
          by_cases hE2 : tcpSamples e count = []
          · rw [ping_alternative_fail e count (Or.inr hE2)]; norm_num
          · rw [ping_alternative_ne e count hT' hE2]
            exact ⟨lossFormula_nonneg count _ hc (tcpSamples_length_le e count),
                   lossFormula_le_100 count _ hc⟩

/-- Claim C5 (amended): the library and TCP-connect strategies report
packet loss `(attempted - succeeded) / attempted * 100`, and on every
strategy path the loss lies in [0, 100] with `succeeded <= attempted`;
the OS-ping strategy however hardcodes loss 0 whenever it parses at
least one sample. -/
theorem claim5_packet_loss (e : PingEnv) (count : ℕ) (hc : 1 ≤ count) :
    (p3samples e count ≠ [] →
      (ping_with_ping3 e count).packet_loss =
        ((count : ℚ) - (p3samples e count).length) / count * 100 ∧
      (p3samples e count).length ≤ count) ∧
    (e.tcpRaises = false → tcpSamples e count ≠ [] →
      (ping_alternative e count).packet_loss =
        ((count : ℚ) - (tcpSamples e count).length) / count * 100 ∧
      (tcpSamples e count).length ≤ count) ∧
    (e.sysRaises = false → (e.sysExitZero && !e.sysParsed.isEmpty) = true →
      (ping_with_system e count).packet_loss = 0) ∧
    0 ≤ (ping_host e count).packet_loss ∧
    (ping_host e count).packet_loss ≤ 100 := by
  refine ⟨fun h => ?_, fun hr h => ?_, fun hS hE => ?_, ping_host_loss_bounds e count hc⟩
  · rw [ping_with_ping3_ne e count h]
    exact ⟨rfl, p3samples_length_le e count⟩
  · rw [ping_alternative_ne e count hr h]
    exact ⟨rfl, tcpSamples_length_le e count⟩
  · unfold ping_with_system
    rw [hS]; simp only [Bool.false_eq_true, if_false]
    rw [hE]; simp only [if_true]

/-- C5 counterexample environment: no library, system ping exits 0 but
only 2 of the 4 attempts produce a parsable `time=` token. -/
def c5env : PingEnv := ⟨false, [], false, true, [10, 12], false, []⟩

/-- Counterexample to claim C5 as stated: on the OS-ping path a probe of
4 attempts with 2 parsed samples reports 0% loss, not the claimed
(4-2)/4*100 = 50%. -/
theorem claim5_counterexample :
    c5env.sysParsed.length = 2 ∧
    (ping_host c5env 4).packet_loss = 0 ∧
    (((4 : ℚ) - 2) / 4) * 100 = 50 ∧
    (ping_host c5env 4).packet_loss ≠ (((4 : ℚ) - 2) / 4) * 100 := by
  have hloss : (ping_host c5env 4).packet_loss = 0 := by
    unfold ping_host ping_with_system
    have h1 : c5env.ping3Available = false := rfl
    have h2 : c5env.sysRaises = false := rfl
    have h3 : (c5env.sysExitZero && !c5env.sysParsed.isEmpty) = true := rfl
    rw [h1, h2, h3]
    simp
  refine ⟨rfl, hloss, by norm_num, ?_⟩
  rw [hloss]; norm_num

/-- Claim C4: when every probe fails (`succeeded == 0` for each test
target), the scorer short-circuits to score 0, rating Poor and the
no-connectivity issue marker, with no penalty arithmetic. -/
theorem claim4_unreachable_short_circuit (envs : List PingEnv) (count : ℕ)
    (h : ∀ e ∈ envs, pingFails e count = true) :
    get_network_quality_score
        (envs.map (fun e => ((ping_host e count).avg, (ping_host e count).packet_loss)))
      = ⟨0, "Poor", ["No connectivity"]⟩ ∧
    "No connectivity" ∈
      (get_network_quality_score
        (envs.map (fun e => ((ping_host e count).avg, (ping_host e count).packet_loss)))).issues := by
  have hfil : (envs.map (fun e => ((ping_host e count).avg, (ping_host e count).packet_loss))).filter
      (fun r => 0 < r.1) = [] := by
    rw [List.filter_eq_nil_iff]
    intro a ha
    obtain ⟨e, he, hEq⟩ := List.mem_map.mp ha
    rw [ping_host_of_fail e count (h e he)] at hEq
    rw [← hEq]
    norm_num
  have heq : get_network_quality_score
      (envs.map (fun e => ((ping_host e count).avg, (ping_host e count).packet_loss)))
      = ⟨0, "Poor", ["No connectivity"]⟩ := by
    simp only [get_network_quality_score, hfil]
    rfl
  exact ⟨heq, by rw [heq]; simp⟩

/-- C4 witness environment: the library is available and every attempt
fails, so the whole probe fails. -/
def c4env : PingEnv := ⟨true, [], false, false, [], false, []⟩

/-- Witness for C4: four fully-failed probes short-circuit the scorer. -/
theorem claim4_unreachable_short_circuit_witness :
    (∀ e ∈ [c4env, c4env, c4env, c4env], pingFails e 3 = true) ∧
    (get_network_quality_score
        ([c4env, c4env, c4env, c4env].map
          (fun e => ((ping_host e 3).avg, (ping_host e 3).packet_loss)))
      = ⟨0, "Poor", ["No connectivity"]⟩ ∧
    "No connectivity" ∈
      (get_network_quality_score
        ([c4env, c4env, c4env, c4env].map
          (fun e => ((ping_host e 3).avg, (ping_host e 3).packet_loss)))).issues) :=
  ⟨by decide, claim4_unreachable_short_circuit [c4env, c4env, c4env, c4env] 3 (by decide)⟩

/-- Witness for C5 (amended): the loss-formula theorem applied to the
concrete environment `c5env` with 4 attempts. -/
theorem claim5_packet_loss_witness :
    1 ≤ 4 ∧
    ((p3samples c5env 4 ≠ [] →
      (ping_with_ping3 c5env 4).packet_loss =
        ((4 : ℚ) - (p3samples c5env 4).length) / 4 * 100 ∧
      (p3samples c5env 4).length ≤ 4) ∧
    (c5env.tcpRaises = false → tcpSamples c5env 4 ≠ [] →
      (ping_alternative c5env 4).packet_loss =
        ((4 : ℚ) - (tcpSamples c5env 4).length) / 4 * 100 ∧
      (tcpSamples c5env 4).length ≤ 4) ∧
    (c5env.sysRaises = false → (c5env.sysExitZero && !c5env.sysParsed.isEmpty) = true →
      (ping_with_system c5env 4).packet_loss = 0) ∧
    0 ≤ (ping_host c5env 4).packet_loss ∧
    (ping_host c5env 4).packet_loss ≤ 100) :=
  ⟨by norm_num, claim5_packet_loss c5env 4 (by norm_num)⟩

/-! ## network_analyzer.py: test_bandwidth / _test_bandwidth_alternative -/

/-- The dictionary returned by `_test_bandwidth_alternative`:
keys `download`, `upload`, `ping`. -/
structure BwResult where
  download : ℚ
  upload : ℚ
  ping : ℚ
  deriving DecidableEq, Repr

/-- The per-bucket download estimate of `_test_bandwidth_alternative`,
before the final `max(5, min(200, .))` clamp. -/
def bwDownloadPre (avg : ℚ) : ℚ :=
  if avg < 20 then 100 + (50 - avg) * 2
  else if avg < 50 then 50 + (50 - avg) * (3/2)
  else if avg < 100 then 25 + (100 - avg) * (1/2)
  else max 5 (25 - (avg - 100) * (1/5))

/-- The per-bucket upload factor of `_test_bandwidth_alternative`. -/
def bwUploadFactor (avg : ℚ) : ℚ :=
  if avg < 20 then 9/10
  else if avg < 50 then 8/10
  else if avg < 100 then 7/10
  else 6/10

/-- The mean latency over the servers whose 2-attempt ping reported a
positive average (the `avg_latency` of `_test_bandwidth_alternative`). -/
def bwAvg (pingAvgs : List ℚ) : ℚ := mean (pingAvgs.filter (fun a => 0 < a))

/-- `NetworkAnalyzer._test_bandwidth_alternative`, as a function of the
per-server `ping_host` averages: servers with positive average count as
successful tests; with none the zero dictionary is returned, otherwise
download and upload are estimated from the mean latency bucket, clamped
to [5, 200] and [2, 100] respectively, and rounded to one decimal. -/
def test_bandwidth_alternative (pingAvgs : List ℚ) : BwResult :=
  if pingAvgs.filter (fun a => 0 < a) = [] then ⟨0, 0, 0⟩
  else
    ⟨round1 (max 5 (min 200 (bwDownloadPre (bwAvg pingAvgs)))),
     round1 (max 2 (min 100 (bwDownloadPre (bwAvg pingAvgs) * bwUploadFactor (bwAvg pingAvgs)))),
     round1 (bwAvg pingAvgs)⟩

theorem rhe_bounds (n m : ℤ) (x : ℚ) (hl : (n : ℚ) ≤ x) (hu : x ≤ (m : ℚ)) :
    n ≤ rhe x ∧ rhe x ≤ m := by
  have hnf : n ≤ ⌊x⌋ := Int.le_floor.mpr hl
  have hfm : ⌊x⌋ ≤ m := by
    have := Int.floor_le_floor hu
    rwa [Int.floor_intCast] at this
  have hfx : (⌊x⌋ : ℚ) ≤ x := Int.floor_le x
  simp only [rhe]
  split_ifs with h1 h2 h3
  · exact ⟨hnf, hfm⟩
  · refine ⟨le_trans hnf (by omega), ?_⟩
    have hflt : (⌊x⌋ : ℚ) < x := by linarith
    have : ⌊x⌋ < m := by
      have hxm : (⌊x⌋ : ℚ) < (m : ℚ) := lt_of_lt_of_le hflt hu
      exact_mod_cast hxm
    omega
  · exact ⟨hnf, hfm⟩
  · refine ⟨le_trans hnf (by omega), ?_⟩
    have hflt : (⌊x⌋ : ℚ) < x := by linarith
    have : ⌊x⌋ < m := by
      have hxm : (⌊x⌋ : ℚ) < (m : ℚ) := lt_of_lt_of_le hflt hu
      exact_mod_cast hxm
    omega

theorem round1_bounds (n m : ℤ) (x : ℚ) (hl : (n : ℚ) ≤ x) (hu : x ≤ (m : ℚ)) :
    (n : ℚ) ≤ round1 x ∧ round1 x ≤ (m : ℚ) := by
  have h10l : ((10 * n : ℤ) : ℚ) ≤ x * 10 := by push_cast; linarith
  have h10u : x * 10 ≤ ((10 * m : ℤ) : ℚ) := by push_cast; linarith
  obtain ⟨hA, hB⟩ := rhe_bounds (10 * n) (10 * m) (x * 10) h10l h10u
  have hA' : ((10 * n : ℤ) : ℚ) ≤ (rhe (x * 10) : ℚ) := by exact_mod_cast hA
  have hB' : (rhe (x * 10) : ℚ) ≤ ((10 * m : ℤ) : ℚ) := by exact_mod_cast hB
  unfold round1
  push_cast at hA' hB' ⊢
  constructor <;> linarith

/-- Claim C9 (amended): with at least one successful test, download is the
piecewise-linear latency-bucket estimate clamped to [5, 200] and rounded
to one decimal, and upload is the pre-clamp download times the per-bucket
factor (0.9, 0.8, 0.7, 0.6 from best to worst bucket), further clamped to
[2, 100] and rounded; the reported figures satisfy 5 ≤ download ≤ 200 and
2 ≤ upload ≤ 100. -/
theorem claim9_bandwidth_heuristic (pingAvgs : List ℚ)
    (h : pingAvgs.filter (fun a => 0 < a) ≠ []) :
    (test_bandwidth_alternative pingAvgs).download =
      round1 (max 5 (min 200 (bwDownloadPre (bwAvg pingAvgs)))) ∧
    (test_bandwidth_alternative pingAvgs).upload =
      round1 (max 2 (min 100
        (bwDownloadPre (bwAvg pingAvgs) * bwUploadFactor (bwAvg pingAvgs)))) ∧
    (bwAvg pingAvgs < 20 →
      bwDownloadPre (bwAvg pingAvgs) = 100 + (50 - bwAvg pingAvgs) * 2 ∧
      bwUploadFactor (bwAvg pingAvgs) = 9/10) ∧
    (20 ≤ bwAvg pingAvgs → bwAvg pingAvgs < 50 →
      bwDownloadPre (bwAvg pingAvgs) = 50 + (50 - bwAvg pingAvgs) * (3/2) ∧
      bwUploadFactor (bwAvg pingAvgs) = 8/10) ∧
    (50 ≤ bwAvg pingAvgs → bwAvg pingAvgs < 100 →
      bwDownloadPre (bwAvg pingAvgs) = 25 + (100 - bwAvg pingAvgs) * (1/2) ∧
      bwUploadFactor (bwAvg pingAvgs) = 7/10) ∧
    (100 ≤ bwAvg pingAvgs →
      bwDownloadPre (bwAvg pingAvgs) = max 5 (25 - (bwAvg pingAvgs - 100) * (1/5)) ∧
      bwUploadFactor (bwAvg pingAvgs) = 6/10) ∧
    5 ≤ (test_bandwidth_alternative pingAvgs).download ∧
    (test_bandwidth_alternative pingAvgs).download ≤ 200 ∧
    2 ≤ (test_bandwidth_alternative pingAvgs).upload ∧
    (test_bandwidth_alternative pingAvgs).upload ≤ 100 := by
  have hbw : test_bandwidth_alternative pingAvgs =
      ⟨round1 (max 5 (min 200 (bwDownloadPre (bwAvg pingAvgs)))),
       round1 (max 2 (min 100
         (bwDownloadPre (bwAvg pingAvgs) * bwUploadFactor (bwAvg pingAvgs)))),
       round1 (bwAvg pingAvgs)⟩ := by
    unfold test_bandwidth_alternative
    rw [if_neg h]
  have hd5 : (5 : ℚ) ≤ max 5 (min 200 (bwDownloadPre (bwAvg pingAvgs))) := le_max_left _ _
  have hd200 : max 5 (min 200 (bwDownloadPre (bwAvg pingAvgs))) ≤ 200 :=
    max_le (by norm_num) (min_le_left _ _)
  have hu2 : (2 : ℚ) ≤ max 2 (min 100
      (bwDownloadPre (bwAvg pingAvgs) * bwUploadFactor (bwAvg pingAvgs))) := le_max_left _ _
  have hu100 : max 2 (min 100
      (bwDownloadPre (bwAvg pingAvgs) * bwUploadFactor (bwAvg pingAvgs))) ≤ 100 :=
    max_le (by norm_num) (min_le_left _ _)
  have hdb := round1_bounds 5 200 _ (by exact_mod_cast hd5) (by exact_mod_cast hd200)
  have hub := round1_bounds 2 100 _ (by exact_mod_cast hu2) (by exact_mod_cast hu100)
  refine ⟨by rw [hbw], by rw [hbw], ?_, ?_, ?_, ?_, ?_, ?_, ?_, ?_⟩
  · intro h1
    constructor
    · unfold bwDownloadPre
      rw [if_pos h1]
    · unfold bwUploadFactor
      rw [if_pos h1]
  · intro h1 h2
    constructor
    · unfold bwDownloadPre
      rw [if_neg (by linarith), if_pos h2]
    · unfold bwUploadFactor
      rw [if_neg (by linarith), if_pos h2]
  · intro h1 h2
    constructor
    · unfold bwDownloadPre
      rw [if_neg (by linarith), if_neg (by linarith), if_pos h2]
    · unfold bwUploadFactor
      rw [if_neg (by linarith), if_neg (by linarith), if_pos h2]
  · intro h1
    constructor
    · unfold bwDownloadPre
      rw [if_neg (by linarith), if_neg (by linarith), if_neg (by linarith)]
    · unfold bwUploadFactor
      rw [if_neg (by linarith), if_neg (by linarith), if_neg (by linarith)]
  · rw [hbw]; exact_mod_cast hdb.1
  · rw [hbw]; exact_mod_cast hdb.2
  · rw [hbw]; exact_mod_cast hub.1
  · rw [hbw]; exact_mod_cast hub.2

/-- Witness for C9 (amended): the bandwidth theorem applied to a single
successful 30 ms test. -/
theorem claim9_bandwidth_heuristic_witness :
    ([(30 : ℚ)].filter (fun a => 0 < a) ≠ []) ∧
    ((test_bandwidth_alternative [(30 : ℚ)]).download =
      round1 (max 5 (min 200 (bwDownloadPre (bwAvg [(30 : ℚ)])))) ∧
    (test_bandwidth_alternative [(30 : ℚ)]).upload =
      round1 (max 2 (min 100
        (bwDownloadPre (bwAvg [(30 : ℚ)]) * bwUploadFactor (bwAvg [(30 : ℚ)])))) ∧
    (bwAvg [(30 : ℚ)] < 20 →
      bwDownloadPre (bwAvg [(30 : ℚ)]) = 100 + (50 - bwAvg [(30 : ℚ)]) * 2 ∧
      bwUploadFactor (bwAvg [(30 : ℚ)]) = 9/10) ∧
    (20 ≤ bwAvg [(30 : ℚ)] → bwAvg [(30 : ℚ)] < 50 →
      bwDownloadPre (bwAvg [(30 : ℚ)]) = 50 + (50 - bwAvg [(30 : ℚ)]) * (3/2) ∧
      bwUploadFactor (bwAvg [(30 : ℚ)]) = 8/10) ∧
    (50 ≤ bwAvg [(30 : ℚ)] → bwAvg [(30 : ℚ)] < 100 →
      bwDownloadPre (bwAvg [(30 : ℚ)]) = 25 + (100 - bwAvg [(30 : ℚ)]) * (1/2) ∧
      bwUploadFactor (bwAvg [(30 : ℚ)]) = 7/10) ∧
    (100 ≤ bwAvg [(30 : ℚ)] →
      bwDownloadPre (bwAvg [(30 : ℚ)]) = max 5 (25 - (bwAvg [(30 : ℚ)] - 100) * (1/5)) ∧
      bwUploadFactor (bwAvg [(30 : ℚ)]) = 6/10) ∧
    5 ≤ (test_bandwidth_alternative [(30 : ℚ)]).download ∧
    (test_bandwidth_alternative [(30 : ℚ)]).download ≤ 200 ∧
    2 ≤ (test_bandwidth_alternative [(30 : ℚ)]).upload ∧
    (test_bandwidth_alternative [(30 : ℚ)]).upload ≤ 100) :=
  ⟨by decide, claim9_bandwidth_heuristic [(30 : ℚ)] (by decide)⟩

/-- Counterexample to claim C9 as stated: at 10 ms mean latency the
pre-clamp download is 180 and the claimed upload 180 x 0.9 = 162, but the
code clamps upload to 100, so upload is not download times the factor. -/
theorem claim9_counterexample :
    (test_bandwidth_alternative [(10 : ℚ)]).download = 180 ∧
    (test_bandwidth_alternative [(10 : ℚ)]).upload = 100 ∧
    bwUploadFactor (bwAvg [(10 : ℚ)]) = 9/10 ∧
    (test_bandwidth_alternative [(10 : ℚ)]).download * (9/10) = 162 ∧
    (test_bandwidth_alternative [(10 : ℚ)]).upload ≠
      (test_bandwidth_alternative [(10 : ℚ)]).download * (9/10) := by
  have havg : bwAvg [(10 : ℚ)] = 10 := by
    unfold bwAvg
    rw [show List.filter (fun a => decide (0 < a)) [(10 : ℚ)] = [10] from by decide]
    norm_num [mean]
  have hpre : bwDownloadPre 10 = 180 := by
    unfold bwDownloadPre
    norm_num
  have hfac : bwUploadFactor 10 = 9/10 := by
    unfold bwUploadFactor
    norm_num
  have h180 : max (5 : ℚ) (min 200 (180 : ℚ)) = 180 := by norm_num [min_def, max_def]
  have h100 : max (2 : ℚ) (min 100 ((180 : ℚ) * (9/10))) = 100 := by
    norm_num [min_def, max_def]
  have hr180 : round1 (180 : ℚ) = 180 := by unfold round1 rhe; norm_num
  have hr100 : round1 (100 : ℚ) = 100 := by unfold round1 rhe; norm_num
  have hbw : test_bandwidth_alternative [(10 : ℚ)] = ⟨180, 100, round1 10⟩ := by
    unfold test_bandwidth_alternative
    rw [if_neg (by decide), havg, hpre, hfac, h180, h100, hr180, hr100]
  rw [hbw, havg, hfac]
  refine ⟨rfl, rfl, rfl, by norm_num, ?_⟩
  norm_num

/-! ## multi_internet.py: MultiInternet -/

/-- One entry of `get_available_connections()` together with the outcome
of every external effect `test_connection_quality` performs on it
(interface statistics and the three single-packet server pings). -/
structure IfaceEnv where
  /-- the `interface` key of the enumerated connection. -/
  name : String
  /-- the `status` key: the enumerators set it to `Connected` or
  (on the Unix path, for a stats-down interface) `Disconnected`. -/
  status : String
  /-- the interface appears in `psutil.net_if_stats()`. -/
  statsKnown : Bool
  /-- `net_if_stats()[interface].isup`. -/
  statsUp : Bool
  /-- the latencies parsed from the three single-packet server pings
  (failed or unparsable pings contribute nothing). -/
  pingLatencies : List ℚ
  /-- an exception fired inside the body of `test_connection_quality`. -/
  errors : Bool
  deriving DecidableEq, Repr

/-- `MultiInternet._estimate_bandwidth`: a name-based constant estimate,
0 when the interface has no statistics entry. -/
def estimate_bandwidth (e : IfaceEnv) : ℚ :=
  if e.statsKnown then
    if strContains (strLower e.name) "wifi" || strContains (strLower e.name) "wireless"
    then 50
    else if strContains (strLower e.name) "ethernet" || strContains (strLower e.name) "eth"
    then 100
    else 25
  else 0

/-- `MultiInternet._calculate_quality_score`: 100 minus latency and loss
penalties plus a bandwidth bonus, clamped to [0, 100]. -/
def calculate_quality_score (latency packet_loss bandwidth : ℚ) : ℚ :=
  max 0 (min 100 (100
    - (if latency > 200 then 40
       else if latency > 100 then 20
       else if latency > 50 then 10 else 0)
    - (if packet_loss > 10 then 30
       else if packet_loss > 5 then 15
       else if packet_loss > 1 then 5 else 0)
    + (if bandwidth > 100 then 10
       else if bandwidth > 50 then 5 else 0)))

/-- The dictionary returned by `test_connection_quality`; on the
stats-down early return the `quality_score` key is absent (`none`). -/
structure TCQ where
  latency : ℚ
  bandwidth : ℚ
  packet_loss : ℚ
  quality_score : Option ℚ
  deriving DecidableEq, Repr

/-- `MultiInternet.test_connection_quality`: early return without a
`quality_score` key when statistics report the interface down; the
exception handler returns the zero-score dictionary; otherwise latency
and loss are aggregated over the three test servers (999 / 100 when no
ping succeeds) and scored. -/
def test_connection_quality (e : IfaceEnv) : TCQ :=
  if e.errors then ⟨999, 0, 100, some 0⟩
  else if e.statsKnown && !e.statsUp then ⟨999, 0, 100, none⟩
  else if e.pingLatencies = [] then
    ⟨999, estimate_bandwidth e, 100,
      some (calculate_quality_score 999 100 (estimate_bandwidth e))⟩
  else
    ⟨mean e.pingLatencies, estimate_bandwidth e,
      ((3 : ℚ) - e.pingLatencies.length) / 3 * 100,
      some (calculate_quality_score (mean e.pingLatencies)
        (((3 : ℚ) - e.pingLatencies.length) / 3 * 100) (estimate_bandwidth e))⟩

/-- The loop of `MultiInternet.get_best_connection`: `best` and
`best_score` are the running accumulator (initially `None` and 0); a
connected entry whose quality dictionary lacks the `quality_score` key
raises a `KeyError` (modelled as `Except.error`). -/
def get_best_connection_aux :
    List IfaceEnv → Option (String × ℚ) → ℚ → Except Unit (Option (String × ℚ))
  | [], best, _ => .ok best
  | c :: cs, best, bs =>
    if c.status = "Connected" then
      match (test_connection_quality c).quality_score with
      | none => .error ()
      | some s =>
        if s > bs then get_best_connection_aux cs (some (c.name, s)) s
        else get_best_connection_aux cs best bs
    else get_best_connection_aux cs best bs

/-- `MultiInternet.get_best_connection`. -/
def get_best_connection (l : List IfaceEnv) : Except Unit (Option (String × ℚ)) :=
  if l = [] then .ok none else get_best_connection_aux l none 0

/-- The pure selection loop of `get_best_connection` over the already
extracted `(name, score)` pairs. -/
def bestAux : Option (String × ℚ) → ℚ → List (String × ℚ) → Option (String × ℚ)
  | best, _, [] => best
  | best, bs, x :: xs => if x.2 > bs then bestAux (some x) x.2 xs else bestAux best bs xs

/-- The `(name, quality_score)` pairs of the connected entries (scores
defaulting to 0 where the key is absent). -/
def connectedScores (l : List IfaceEnv) : List (String × ℚ) :=
  (l.filter (fun c => c.status = "Connected")).map
    (fun c => (c.name, ((test_connection_quality c).quality_score).getD 0))

/-- No connected entry hits the missing-`quality_score` early return. -/
def noMissing (l : List IfaceEnv) : Prop :=
  ∀ c ∈ l, c.status = "Connected" → (test_connection_quality c).quality_score ≠ none

instance noMissing_decidable (l : List IfaceEnv) : Decidable (noMissing l) :=
  inferInstanceAs (Decidable (∀ c ∈ l, _ → _ ≠ _))

/-- The collection loop of `MultiInternet._get_backup_connections`:
connected entries with positive score, in enumeration order; a missing
`quality_score` key raises. -/
def collect_backups : List IfaceEnv → Except Unit (List (String × ℚ))
  | [] => .ok []
  | c :: cs =>
    if c.status = "Connected" then
      match (test_connection_quality c).quality_score with
      | none => .error ()
      | some s =>
        match collect_backups cs with
        | .error e => .error e
        | .ok rest => .ok (if s > 0 then (c.name, s) :: rest else rest)
    else collect_backups cs

/-- Sorting key of `_get_backup_connections`: descending by score
(`sort(key=..., reverse=True)`, stable). -/
def scoreRel (a b : String × ℚ) : Prop := b.2 ≤ a.2

instance scoreRel_decidable : DecidableRel scoreRel :=
  fun a b => inferInstanceAs (Decidable (b.2 ≤ a.2))

instance scoreRel_total : IsTotal (String × ℚ) scoreRel :=
  ⟨fun a b => le_total b.2 a.2⟩

instance scoreRel_trans : IsTrans (String × ℚ) scoreRel :=
  ⟨fun _ _ _ hab hbc => le_trans hbc hab⟩

/-- `MultiInternet._get_backup_connections`: the positive-score connected
entries sorted descending by score, minus the top entry. -/
def get_backup_connections (l : List IfaceEnv) : Except Unit (List (String × ℚ)) :=
  match collect_backups l with
  | .error e => .error e
  | .ok bl => .ok ((List.insertionSort scoreRel bl).drop 1)

/-- The connected entries with positive score, in enumeration order. -/
def positives (l : List IfaceEnv) : List (String × ℚ) :=
  (connectedScores l).filter (fun p => 0 < p.2)

/-! ### Connection selection (C3, C8, C10) -/

theorem connectedScores_cons_conn (c : IfaceEnv) (cs : List IfaceEnv)
    (hc : c.status = "Connected") (s : ℚ)
    (hq : (test_connection_quality c).quality_score = some s) :
    connectedScores (c :: cs) = (c.name, s) :: connectedScores cs := by
  unfold connectedScores
  rw [List.filter_cons]
  simp [hc, hq]

theorem connectedScores_cons_not (c : IfaceEnv) (cs : List IfaceEnv)
    (hc : ¬ c.status = "Connected") :
    connectedScores (c :: cs) = connectedScores cs := by
  unfold connectedScores
  rw [List.filter_cons]
  simp [hc]

theorem get_best_connection_aux_eq (l : List IfaceEnv) :
    ∀ (best : Option (String × ℚ)) (bs : ℚ), noMissing l →
    get_best_connection_aux l best bs = .ok (bestAux best bs (connectedScores l)) := by
  induction l with
  | nil => intro best bs _; rfl
  | cons c cs ih =>
    intro best bs h
    have hcs : noMissing cs := fun x hx => h x (List.mem_cons_of_mem _ hx)
    unfold get_best_connection_aux
    by_cases hc : c.status = "Connected"
    · rw [if_pos hc]
      have hs := h c (List.mem_cons_self _ _) hc
      cases hq : (test_connection_quality c).quality_score with
      | none => exact absurd hq hs
      | some s =>
        rw [connectedScores_cons_conn c cs hc s hq]
        show (if s > bs then get_best_connection_aux cs (some (c.name, s)) s
              else get_best_connection_aux cs best bs) = _
        unfold bestAux
        by_cases hgt : s > bs
        · rw [if_pos hgt, if_pos hgt]
          exact ih _ _ hcs
        · rw [if_neg hgt, if_neg hgt]
          exact ih _ _ hcs
    · rw [if_neg hc, connectedScores_cons_not c cs hc]
      exact ih _ _ hcs

theorem bestAux_some_elim :
    ∀ (xs : List (String × ℚ)) (best : Option (String × ℚ)) (bs : ℚ) (p : String × ℚ),
    bestAux best bs xs = some p →
    (best = some p ∧ ∀ x ∈ xs, x.2 ≤ bs) ∨
    (bs < p.2 ∧ ∃ l1 l2, xs = l1 ++ p :: l2 ∧
      (∀ a ∈ l1, a.2 < p.2) ∧ (∀ b ∈ l2, b.2 ≤ p.2)) := by
  intro xs
  induction xs with
  | nil =>
    intro best bs p h
    exact Or.inl ⟨h, by intro x hx; cases hx⟩
  | cons x xs ih =>
    intro best bs p h
    unfold bestAux at h
    by_cases hx : x.2 > bs
    · rw [if_pos hx] at h
      rcases ih (some x) x.2 p h with ⟨heq, hall⟩ | ⟨hlt, l1, l2, hsplit, hbefore, hafter⟩
      · injection heq with heq'
        subst heq'
        refine Or.inr ⟨hx, [], xs, rfl, ?_, ?_⟩
        · intro a ha; cases ha
        · exact hall
      · refine Or.inr ⟨lt_trans hx hlt, x :: l1, l2, by rw [hsplit]; rfl, ?_, hafter⟩
        intro a ha
        rcases List.mem_cons.mp ha with rfl | ha'
        · exact hlt
        · exact hbefore a ha'
    · rw [if_neg hx] at h
      rcases ih best bs p h with ⟨heq, hall⟩ | ⟨hlt, l1, l2, hsplit, hbefore, hafter⟩
      · refine Or.inl ⟨heq, ?_⟩
        intro y hy
        rcases List.mem_cons.mp hy with rfl | hy'
        · exact le_of_not_lt hx
        · exact hall y hy'
      · refine Or.inr ⟨hlt, x :: l1, l2, by rw [hsplit]; rfl, ?_, hafter⟩
        intro a ha
        rcases List.mem_cons.mp ha with rfl | ha'
        · exact lt_of_le_of_lt (le_of_not_lt hx) hlt
        · exact hbefore a ha'

theorem bestAux_some_isSome :
    ∀ (xs : List (String × ℚ)) (q : String × ℚ) (bs : ℚ),
    ∃ p, bestAux (some q) bs xs = some p := by
  intro xs
  induction xs with
  | nil => intro q bs; exact ⟨q, rfl⟩
  | cons x xs ih =>
    intro q bs
    unfold bestAux
    by_cases hx : x.2 > bs
    · rw [if_pos hx]; exact ih x x.2
    · rw [if_neg hx]; exact ih q bs

theorem bestAux_exists_gt :
    ∀ (xs : List (String × ℚ)) (bs : ℚ), (∃ x ∈ xs, bs < x.2) →
    ∀ best, ∃ p, bestAux best bs xs = some p := by
  intro xs
  induction xs with
  | nil =>
    intro bs h best
    obtain ⟨x, hx, _⟩ := h
    cases hx
  | cons x xs ih =>
    intro bs h best
    unfold bestAux
    by_cases hx : x.2 > bs
    · rw [if_pos hx]; exact bestAux_some_isSome xs x x.2
    · rw [if_neg hx]
      obtain ⟨y, hy, hy2⟩ := h
      rcases List.mem_cons.mp hy with rfl | hy'
      · exact absurd hy2 hx
      · exact ih bs ⟨y, hy', hy2⟩ best

theorem bestAux_all_le :
    ∀ (xs : List (String × ℚ)) (best : Option (String × ℚ)) (bs : ℚ),
    (∀ x ∈ xs, x.2 ≤ bs) → bestAux best bs xs = best := by
  intro xs
  induction xs with
  | nil => intro best bs _; rfl
  | cons x xs ih =>
    intro best bs h
    unfold bestAux
    rw [if_neg (not_lt.mpr (h x (List.mem_cons_self _ _)))]
    exact ih best bs (fun y hy => h y (List.mem_cons_of_mem _ hy))

theorem connectedScores_mem (l : List IfaceEnv) (h : noMissing l)
    (p : String × ℚ) (hp : p ∈ connectedScores l) :
    ∃ c ∈ l, c.status = "Connected" ∧ p.1 = c.name ∧
      (test_connection_quality c).quality_score = some p.2 := by
  unfold connectedScores at hp
  obtain ⟨c, hcf, hmap⟩ := List.mem_map.mp hp
  have hcmem := (List.mem_filter.mp hcf).1
  have hcst : c.status = "Connected" := by
    have := (List.mem_filter.mp hcf).2
    simpa using this
  have hq := h c hcmem hcst
  cases hqq : (test_connection_quality c).quality_score with
  | none => exact absurd hqq hq
  | some s =>
    refine ⟨c, hcmem, hcst, ?_, ?_⟩
    · rw [← hmap]
    · rw [← hmap, hqq]
      simp

/-- Claim C3 (amended): under environments where no connected interface
hits the missing-score early return, `get_best_connection` returns
normally; it returns an interface only if that interface is enumerated
as Connected, with a positive score that is maximal among the connected
interfaces' scores and, among equals, the earliest enumerated; it
returns none exactly when no connected interface has a positive score
(in particular when none is connected, but also when connected
interfaces exist whose quality test errored out with score 0). -/
theorem claim3_best_connection (l : List IfaceEnv) (h : noMissing l) :
    ∃ r, get_best_connection l = .ok r ∧
      (r = none ↔ ∀ p ∈ connectedScores l, p.2 ≤ 0) ∧
      (∀ p, r = some p →
        (∃ c ∈ l, c.status = "Connected" ∧ p.1 = c.name ∧
          (test_connection_quality c).quality_score = some p.2) ∧
        0 < p.2 ∧
        ∃ l1 l2, connectedScores l = l1 ++ p :: l2 ∧
          (∀ a ∈ l1, a.2 < p.2) ∧ (∀ b ∈ l2, b.2 ≤ p.2)) := by
  by_cases hl : l = []
  · subst hl
    refine ⟨none, by unfold get_best_connection; rw [if_pos rfl], ?_, ?_⟩
    · constructor
      · intro _ p hp
        simp [connectedScores] at hp
      · intro _; rfl
    · intro p hp; cases hp
  · have hbc : get_best_connection l = .ok (bestAux none 0 (connectedScores l)) := by
      unfold get_best_connection
      rw [if_neg hl]
      exact get_best_connection_aux_eq l none 0 h
    refine ⟨bestAux none 0 (connectedScores l), hbc, ?_, ?_⟩
    · constructor
      · intro hn
        by_contra hcon
        push_neg at hcon
        obtain ⟨x, hx, hx2⟩ := hcon
        obtain ⟨p, hp⟩ := bestAux_exists_gt (connectedScores l) 0 ⟨x, hx, hx2⟩ none
        rw [hn] at hp
        cases hp
      · intro hall
        exact bestAux_all_le (connectedScores l) none 0 hall
    · intro p hp
      rcases bestAux_some_elim (connectedScores l) none 0 p hp with
        ⟨heq, _⟩ | ⟨hpos, l1, l2, hsplit, hb, ha⟩
      · cases heq
      · have hpmem : p ∈ connectedScores l := by
          rw [hsplit]
          exact List.mem_append_right _ (List.mem_cons_self _ _)
        exact ⟨connectedScores_mem l h p hpmem, hpos, l1, l2, hsplit, hb, ha⟩

/-- C3 witness environment: a single healthy connected interface. -/
def c3up : IfaceEnv := ⟨"eth0", "Connected", true, true, [30], false⟩

/-- Witness for C3 (amended): the selection theorem applied to the
one-interface environment `c3up`. -/
theorem claim3_best_connection_witness :
    noMissing [c3up] ∧
    (∃ r, get_best_connection [c3up] = .ok r ∧
      (r = none ↔ ∀ p ∈ connectedScores [c3up], p.2 ≤ 0) ∧
      (∀ p, r = some p →
        (∃ c ∈ [c3up], c.status = "Connected" ∧ p.1 = c.name ∧
          (test_connection_quality c).quality_score = some p.2) ∧
        0 < p.2 ∧
        ∃ l1 l2, connectedScores [c3up] = l1 ++ p :: l2 ∧
          (∀ a ∈ l1, a.2 < p.2) ∧ (∀ b ∈ l2, b.2 ≤ p.2))) :=
  ⟨by decide, claim3_best_connection [c3up] (by decide)⟩

/-- C3 counterexample environment: a connected, statistics-up interface
whose quality test raised, yielding the zero-score dictionary. -/
def c3err : IfaceEnv := ⟨"wlan0", "Connected", true, true, [], true⟩

/-- Counterexample to claim C3 as stated: an up (Connected, isup)
interface exists, yet `get_best_connection` returns none, because the
interface's error-path score 0 never beats the initial `best_score = 0`;
so "returns none exactly when no interface is up" fails. -/
theorem claim3_counterexample :
    c3err.status = "Connected" ∧ c3err.statsUp = true ∧
    get_best_connection [c3err] = .ok none :=
  ⟨rfl, rfl, rfl⟩

/-- C10 failing input: an interface enumerated with status Connected
(as the Windows psutil path always does) whose `net_if_stats()` entry
reports it down. -/
def c10down : IfaceEnv := ⟨"Local Area Connection", "Connected", true, false, [], false⟩

/-- Claim C10 is violated by the code: on `c10down`,
`test_connection_quality` takes the stats-down early return whose
dictionary lacks the `quality_score` key, and `get_best_connection`
then raises a `KeyError` to its caller instead of returning a value. -/
theorem claim10_keyerror_on_down_interface :
    c10down.status = "Connected" ∧
    (test_connection_quality c10down).quality_score = none ∧
    get_best_connection [c10down] = .error () :=
  ⟨rfl, rfl, rfl⟩

theorem collect_backups_eq (l : List IfaceEnv) (h : noMissing l) :
    collect_backups l = .ok (positives l) := by
  induction l with
  | nil => rfl
  | cons c cs ih =>
    have hcs : noMissing cs := fun x hx => h x (List.mem_cons_of_mem _ hx)
    unfold collect_backups
    by_cases hc : c.status = "Connected"
    · rw [if_pos hc]
      have hs := h c (List.mem_cons_self _ _) hc
      cases hq : (test_connection_quality c).quality_score with
      | none => exact absurd hq hs
      | some s =>
        rw [ih hcs]
        show Except.ok (if s > 0 then (c.name, s) :: positives cs else positives cs) = _
        unfold positives
        rw [connectedScores_cons_conn c cs hc s hq, List.filter_cons]
        by_cases hpos : s > 0
        · rw [if_pos hpos]
          simp [hpos]
        · rw [if_neg hpos]
          simp [hpos]
    · rw [if_neg hc]
      rw [ih hcs]
      unfold positives
      rw [connectedScores_cons_not c cs hc]

/-- Claim C8 (amended): under environments where no connected interface
hits the missing-score early return, `get_backup_connections` returns
the positive-score connected entries sorted descending by score with the
top entry removed; whenever `get_best_connection` returns an interface,
the backup list has length (number of positive-score connected
interfaces) - 1 and equals the descending ranking minus its maximal
first entry; when no best connection exists the backup list is empty. -/
theorem claim8_backup_connections (l : List IfaceEnv) (h : noMissing l) :
    ∃ bk, get_backup_connections l = .ok bk ∧
      List.Pairwise scoreRel bk ∧
      (∀ p, get_best_connection l = .ok (some p) →
        bk.length + 1 = (positives l).length ∧
        ∃ top, List.insertionSort scoreRel (positives l) = top :: bk ∧
          (∀ q ∈ positives l, q.2 ≤ top.2)) ∧
      (get_best_connection l = .ok none → bk = []) := by
  have hcb := collect_backups_eq l h
  have hgbk : get_backup_connections l =
      .ok ((List.insertionSort scoreRel (positives l)).drop 1) := by
    unfold get_backup_connections
    rw [hcb]
  refine ⟨_, hgbk, ?_, ?_, ?_⟩
  · have hsorted := List.sorted_insertionSort scoreRel (positives l)
    exact List.Pairwise.sublist (List.drop_sublist 1 _) hsorted
  · intro p hp
    by_cases hl : l = []
    · subst hl
      rw [show get_best_connection [] = Except.ok none from rfl] at hp
      simp at hp
    · have hbc' : get_best_connection l = .ok (bestAux none 0 (connectedScores l)) := by
        unfold get_best_connection
        rw [if_neg hl]
        exact get_best_connection_aux_eq l none 0 h
      rw [hbc'] at hp
      have hba : bestAux none 0 (connectedScores l) = some p := by
        injection hp
      rcases bestAux_some_elim (connectedScores l) none 0 p hba with
        ⟨heq, _⟩ | ⟨hpos, l1, l2, hsplit, _, _⟩
      · cases heq
      · have hpmem : p ∈ positives l := by
          unfold positives
          refine List.mem_filter.mpr ⟨?_, ?_⟩
          · rw [hsplit]
            exact List.mem_append_right _ (List.mem_cons_self _ _)
          · simpa using hpos
        have hperm := List.perm_insertionSort scoreRel (positives l)
        have hlen : (List.insertionSort scoreRel (positives l)).length =
            (positives l).length := hperm.length_eq
        have hne : List.insertionSort scoreRel (positives l) ≠ [] := by
          intro hEq
          rw [hEq] at hperm
          have hnil := hperm.nil_eq
          rw [← hnil] at hpmem
          cases hpmem
        cases hsort : List.insertionSort scoreRel (positives l) with
        | nil => exact absurd hsort hne
        | cons top rest =>
          refine ⟨?_, top, ?_, ?_⟩
          · rw [← hlen, hsort]
            simp
          · simp
          · intro q hq
            have hqmem : q ∈ List.insertionSort scoreRel (positives l) :=
              (List.mem_insertionSort scoreRel).mpr hq
            rw [hsort] at hqmem
            rcases List.mem_cons.mp hqmem with rfl | hq'
            · exact le_refl _
            · have hsorted := List.sorted_insertionSort scoreRel (positives l)
              rw [hsort] at hsorted
              exact List.rel_of_pairwise_cons hsorted hq'
  · intro hp
    by_cases hl : l = []
    · subst hl
      simp [positives, connectedScores]
    · have hbc' : get_best_connection l = .ok (bestAux none 0 (connectedScores l)) := by
        unfold get_best_connection
        rw [if_neg hl]
        exact get_best_connection_aux_eq l none 0 h
      rw [hbc'] at hp
      have hba : bestAux none 0 (connectedScores l) = none := by
        injection hp
      have hall : ∀ x ∈ connectedScores l, x.2 ≤ 0 := by
        by_contra hcon
        push_neg at hcon
        obtain ⟨x, hx, hx2⟩ := hcon
        obtain ⟨q, hq⟩ := bestAux_exists_gt (connectedScores l) 0 ⟨x, hx, hx2⟩ none
        rw [hba] at hq
        cases hq
      have hposnil : positives l = [] := by
        unfold positives
        rw [List.filter_eq_nil_iff]
        intro a ha
        simpa using not_lt.mpr (hall a ha)
      rw [hposnil]
      rfl

/-- C8 witness environments: two healthy connected interfaces. -/
def c8upA : IfaceEnv := ⟨"eth1", "Connected", true, true, [25], false⟩

/-- Second C8 witness environment. -/
def c8upB : IfaceEnv := ⟨"wlan1", "Connected", true, true, [40], false⟩

/-- Witness for C8 (amended): the backup-list theorem applied to a
two-interface environment. -/
theorem claim8_backup_connections_witness :
    noMissing [c8upA, c8upB] ∧
    (∃ bk, get_backup_connections [c8upA, c8upB] = .ok bk ∧
      List.Pairwise scoreRel bk ∧
      (∀ p, get_best_connection [c8upA, c8upB] = .ok (some p) →
        bk.length + 1 = (positives [c8upA, c8upB]).length ∧
        ∃ top, List.insertionSort scoreRel (positives [c8upA, c8upB]) = top :: bk ∧
          (∀ q ∈ positives [c8upA, c8upB], q.2 ≤ top.2)) ∧
      (get_best_connection [c8upA, c8upB] = .ok none → bk = [])) :=
  ⟨by decide, claim8_backup_connections [c8upA, c8upB] (by decide)⟩

/-- C8 counterexample environment: a connected interface whose quality
test raised (score 0). -/
def c8err : IfaceEnv := ⟨"wlan2", "Connected", true, true, [], true⟩

/-- Second C8 counterexample environment: a connected interface with no
statistics entry and no successful ping (score 30). -/
def c8ok : IfaceEnv := ⟨"tun0", "Connected", false, false, [], false⟩

theorem c8_calc_score : calculate_quality_score 999 100 0 = 30 := by
  unfold calculate_quality_score
  norm_num [min_def, max_def]

/-- Counterexample to claim C8 as stated: two Connected interfaces, one
of which errored out with score 0; a best connection exists, yet the
backup list is empty rather than of length 2 - 1 = 1, because the
zero-score interface is excluded from the ranking. -/
theorem claim8_counterexample :
    c8err.status = "Connected" ∧ c8ok.status = "Connected" ∧
    get_best_connection [c8err, c8ok] = .ok (some ("tun0", 30)) ∧
    get_backup_connections [c8err, c8ok] = .ok [] ∧
    (List.filter (fun c => c.status = "Connected") [c8err, c8ok]).length = 2 ∧
    (0 : ℕ) ≠ 2 - 1 := by
  have hnm : noMissing [c8err, c8ok] := by decide
  have hcs : connectedScores [c8err, c8ok] = [("wlan2", 0), ("tun0", 30)] := by
    have h1 : connectedScores [c8err, c8ok] =
        [("wlan2", 0), ("tun0", calculate_quality_score 999 100 0)] := rfl
    rw [h1, c8_calc_score]
  have hbest : get_best_connection [c8err, c8ok] = .ok (some ("tun0", 30)) := by
    have hbc : get_best_connection [c8err, c8ok] =
        .ok (bestAux none 0 (connectedScores [c8err, c8ok])) := by
      unfold get_best_connection
      rw [if_neg (by decide)]
      exact get_best_connection_aux_eq _ none 0 hnm
    rw [hbc, hcs]
    rfl
  have hpos2 : positives [c8err, c8ok] = [("tun0", 30)] := by
    unfold positives
    rw [hcs]
    rfl
  have hgb : get_backup_connections [c8err, c8ok] = .ok [] := by
    unfold get_backup_connections
    rw [collect_backups_eq _ hnm, hpos2]
    rfl
  exact ⟨rfl, rfl, hbest, hgb, rfl, by norm_num⟩

/-! ## lol_optimizer.py: LoLOptimizer -/

/-- Python `f"{x:.1f}"` on a non-negative value: one decimal digit. -/
def fmt1 (q : ℚ) : String :=
  toString (rhe (q * 10) / 10) ++ "." ++ toString (rhe (q * 10) % 10)

/-- Python `min(items, key=lambda x: x[1])` over `x :: xs`: the first
entry attaining the minimal value. -/
def minByVal (x : String × ℚ) (xs : List (String × ℚ)) : String × ℚ :=
  xs.foldl (fun cur y => if y.2 < cur.2 then y else cur) x

/-- `LoLOptimizer.get_best_lol_server`, as a function of the
region-to-measured-latency association list produced by
`get_lol_server_latency` (insertion order; unreachable regions carry the
999 ms sentinel). -/
def get_best_lol_server (latencies : List (String × ℚ)) : String :=
  if latencies = [] then "Unknown"
  else
    match latencies.filter (fun p => p.2 < 999) with
    | [] => "No servers reachable"
    | b :: rest =>
      (minByVal b rest).1 ++ " (" ++ fmt1 (minByVal b rest).2 ++ "ms)"

theorem minByVal_cons (x y : String × ℚ) (ys : List (String × ℚ)) :
    minByVal x (y :: ys) = minByVal (if y.2 < x.2 then y else x) ys := rfl

theorem minByVal_mem :
    ∀ (xs : List (String × ℚ)) (x : String × ℚ), minByVal x xs ∈ x :: xs := by
  intro xs
  induction xs with
  | nil => intro x; exact List.mem_cons_self _ _
  | cons y ys ih =>
    intro x
    rw [minByVal_cons]
    by_cases h : y.2 < x.2
    · rw [if_pos h]
      exact List.mem_cons_of_mem x (ih y)
    · rw [if_neg h]
      rcases List.mem_cons.mp (ih x) with heq | hm
      · rw [heq]
        exact List.mem_cons_self _ _
      · exact List.mem_cons_of_mem _ (List.mem_cons_of_mem _ hm)

theorem minByVal_le :
    ∀ (xs : List (String × ℚ)) (x y : String × ℚ),
    y ∈ x :: xs → (minByVal x xs).2 ≤ y.2 := by
  intro xs
  induction xs with
  | nil =>
    intro x y hy
    rcases List.mem_cons.mp hy with rfl | h
    · exact le_refl _
    · cases h
  | cons z zs ih =>
    intro x y hy
    rw [minByVal_cons]
    by_cases h : z.2 < x.2
    · rw [if_pos h]
      rcases List.mem_cons.mp hy with rfl | hy'
      · exact le_of_lt (lt_of_le_of_lt (ih z z (List.mem_cons_self _ _)) h)
      · exact ih z y hy'
    · rw [if_neg h]
      rcases List.mem_cons.mp hy with rfl | hy'
      · exact ih _ _ (List.mem_cons_self _ _)
      · rcases List.mem_cons.mp hy' with rfl | hy2
        · exact le_trans (ih _ _ (List.mem_cons_self _ _)) (le_of_not_lt h)
        · exact ih _ _ (List.mem_cons_of_mem _ hy2)

/-- Claim C6: `get_best_lol_server` considers only regions measured
below the 999 ms unreachable sentinel; among them it returns one with
the lowest latency, formatted with one decimal place, and returns the
fixed "No servers reachable" message when every region is unreachable. -/
theorem claim6_best_region (l : List (String × ℚ)) (hne : l ≠ []) :
    ((∀ p ∈ l, ¬ p.2 < 999) → get_best_lol_server l = "No servers reachable") ∧
    ((∃ p ∈ l, p.2 < 999) →
      ∃ best ∈ l.filter (fun p => p.2 < 999),
        best.2 < 999 ∧
        (∀ q ∈ l.filter (fun p => p.2 < 999), best.2 ≤ q.2) ∧
        get_best_lol_server l = best.1 ++ " (" ++ fmt1 best.2 ++ "ms)") ∧
    get_best_lol_server [("A", (30 : ℚ)), ("B", 999)] = "A (30.0ms)" := by
  refine ⟨?_, ?_, ?_⟩
  · intro hall
    unfold get_best_lol_server
    rw [if_neg hne]
    have hfil : l.filter (fun p => p.2 < 999) = [] := by
      rw [List.filter_eq_nil_iff]
      intro a ha
      simpa using hall a ha
    rw [hfil]
  · intro hex
    have hfil : l.filter (fun p => p.2 < 999) ≠ [] := by
      obtain ⟨p, hp, hp2⟩ := hex
      intro hEq
      have hmem : p ∈ l.filter (fun p => p.2 < 999) :=
        List.mem_filter.mpr ⟨hp, by simpa using hp2⟩
      rw [hEq] at hmem
      cases hmem
    cases hm : l.filter (fun p => p.2 < 999) with
    | nil => exact absurd hm hfil
    | cons b rest =>
      have hprop : ∀ y ∈ b :: rest, y.2 < 999 := by
        intro y hy
        rw [← hm] at hy
        simpa using (List.mem_filter.mp hy).2
      refine ⟨minByVal b rest, ?_, ?_, ?_, ?_⟩
      · exact minByVal_mem rest b
      · exact hprop _ (minByVal_mem rest b)
      · intro q hq
        exact minByVal_le rest b q hq
      · unfold get_best_lol_server
        rw [if_neg hne, hm]
  · have hrhe : rhe ((30 : ℚ) * 10) = 300 := by
      unfold rhe
      norm_num
    have hfmt : fmt1 (30 : ℚ) = "30.0" := by
      unfold fmt1
      rw [hrhe]
      rfl
    have hfil : ([("A", (30 : ℚ)), ("B", 999)]).filter (fun p => p.2 < 999)
        = [("A", (30 : ℚ))] := by decide
    unfold get_best_lol_server
    rw [if_neg (by decide), hfil]
    show "A" ++ " (" ++ fmt1 (30 : ℚ) ++ "ms)" = "A (30.0ms)"
    rw [hfmt]
    rfl

/-- Witness for C6: the theorem applied to the spec's two-region
scenario (A reachable at 30 ms, B fully unreachable). -/
theorem claim6_best_region_witness :
    ([("A", (30 : ℚ)), ("B", 999)] ≠ ([] : List (String × ℚ))) ∧
    ((∃ p ∈ [("A", (30 : ℚ)), ("B", 999)], p.2 < 999) →
      ∃ best ∈ ([("A", (30 : ℚ)), ("B", 999)]).filter (fun p => p.2 < 999),
        best.2 < 999 ∧
        (∀ q ∈ ([("A", (30 : ℚ)), ("B", 999)]).filter (fun p => p.2 < 999),
          best.2 ≤ q.2) ∧
        get_best_lol_server [("A", (30 : ℚ)), ("B", 999)] =
          best.1 ++ " (" ++ fmt1 best.2 ++ "ms)") ∧
    get_best_lol_server [("A", (30 : ℚ)), ("B", 999)] = "A (30.0ms)" :=
  ⟨by decide, (claim6_best_region [("A", (30 : ℚ)), ("B", 999)] (by decide)).2.1,
   (claim6_best_region [("A", (30 : ℚ)), ("B", 999)] (by decide)).2.2⟩

/-! ## system_monitor.py: SystemMonitor -/

/-- One iteration's history update in `SystemMonitor._monitoring_loop`:
append the new entry, then `pop(0)` if the length exceeds 1000. -/
def monitorStep {α : Type} (hist : List α) (x : α) : List α :=
  if 1000 < (hist ++ [x]).length then (hist ++ [x]).tail else hist ++ [x]

theorem monitorStep_length_le {α : Type} (hist : List α) (x : α)
    (h : hist.length ≤ 1000) : (monitorStep hist x).length ≤ 1000 := by
  unfold monitorStep
  by_cases h1 : 1000 < (hist ++ [x]).length
  · rw [if_pos h1]
    rw [List.length_tail]
    simp only [List.length_append, List.length_singleton]
    omega
  · rw [if_neg h1]
    exact le_of_not_lt h1

/-- Claim C7: the monitoring history is a FIFO ring buffer of capacity
1000: a step from a history within capacity stays within capacity (hence
so does any run of the loop from an in-capacity start), and when an
append would exceed the capacity the evicted entry is the head — the
oldest, first-appended one. -/
theorem claim7_monitor_history (α : Type) :
    (∀ (hist : List α) (x : α), hist.length ≤ 1000 →
      (monitorStep hist x).length ≤ 1000) ∧
    (∀ (hist : List α) (x : α), 1000 < (hist ++ [x]).length →
      monitorStep hist x = hist.tail ++ [x]) ∧
    (∀ (xs init : List α), init.length ≤ 1000 →
      (xs.foldl monitorStep init).length ≤ 1000) := by
  refine ⟨fun hist x h => monitorStep_length_le hist x h, ?_, ?_⟩
  · intro hist x h1
    unfold monitorStep
    rw [if_pos h1]
    cases hist with
    | nil => simp at h1
    | cons hd t => simp
  · intro xs
    induction xs with
    | nil => intro init h; simpa using h
    | cons x xs ih =>
      intro init h
      rw [List.foldl_cons]
      exact ih _ (monitorStep_length_le init x h)

/-- Witness for C7: a full 1000-entry history stays at 1000 entries and
evicts exactly its oldest element. -/
theorem claim7_monitor_history_witness :
    ((List.replicate 1000 (0 : ℕ)).length ≤ 1000) ∧
    ((monitorStep (List.replicate 1000 (0 : ℕ)) 7).length ≤ 1000) ∧
    (1000 < (List.replicate 1000 (0 : ℕ) ++ [7]).length) ∧
    (monitorStep (List.replicate 1000 (0 : ℕ)) 7 =
      (List.replicate 1000 (0 : ℕ)).tail ++ [7]) ∧
    (([5, 6, 7] : List ℕ).foldl monitorStep []).length ≤ 1000 := by
  have hlen : (List.replicate 1000 (0 : ℕ)).length = 1000 :=
    List.length_replicate _ _
  have h1 : (List.replicate 1000 (0 : ℕ)).length ≤ 1000 := by rw [hlen]
  have h2 : 1000 < (List.replicate 1000 (0 : ℕ) ++ [7]).length := by
    rw [List.length_append, hlen]
    norm_num
  exact ⟨h1, (claim7_monitor_history ℕ).1 _ 7 h1, h2,
    (claim7_monitor_history ℕ).2.1 _ 7 h2,
    (claim7_monitor_history ℕ).2.2 [5, 6, 7] [] (by norm_num)⟩
